import Mathlib

set_option maxHeartbeats 1000000
set_option linter.unusedVariables false

/-!
Shallow embedding of the frida-trace engine (src/index.js): the value-type
registry, argument descriptors, the dependency-closure action compiler, the
event model, the interception hook bodies and the target resolver, together
with proofs of properties claimed by the specification.

External collaborators (Frida's `Memory`, `Module.findExportByName`,
`Interceptor.attach`, `Process.pointerSize`) are modelled as abstract
function records; every invocation of the memory-read collaborator is
recorded in an explicit log of `MemOp`s so that "never touches memory" is a
provable statement.  JavaScript exceptions are modelled with `Except String`;
the `onError` / `onEvent` callback channels are modelled as output lists.
-/

namespace FridaTrace

/-- Decoded JavaScript-level values produced by the value-type decoders.
`vUndefined` models JavaScript `undefined` (e.g. a missing object property),
`vNull` models JavaScript `null` (the decoded value of a null pointer). -/
inductive Value
  | vBool (b : Bool)
  | vInt (n : Int)
  | vPtr (p : Nat)
  | vStr (s : String)
  | vBytes (bs : List Nat)
  | vNull
  | vUndefined
  deriving DecidableEq

/-- Record of one invocation of the external memory-read collaborator:
the primitive's name, the address it was given and (for the length-taking
primitives) the extra length argument (`vUndefined` when none is passed). -/
structure MemOp where
  op : String
  addr : Nat
  arg : Value
  deriving DecidableEq

/-- The external memory-read collaborator (Frida's `Memory.*` primitives as
used by the value types).  Raw machine words / pointers are `Nat`. -/
structure Memory where
  readPointer : Nat → Nat
  readU8 : Nat → Nat
  readShort : Nat → Int
  readInt : Nat → Int
  readByteArray : Nat → Value → Value
  readUtf8String : Nat → Value → Value
  readUtf16String : Nat → Value → Value

/-- A JavaScript object used as a `typeParameters` bag: a list of
(property, value) pairs. -/
abbrev Params := List (String × Value)

/-- JavaScript property access on a parameters object: a present key yields
its value, a missing key yields `undefined`. -/
def getProp (ps : Params) (key : String) : Value :=
  match ps.find? (fun p => p.1 == key) with
  | some p => p.2
  | none => Value.vUndefined

/-- Result of a decode step: the decoded value (or a thrown JavaScript
exception, as `Except.error`) together with the log of memory reads made. -/
abbrev ParseResult := Except String Value × List MemOp

/-- Anything with a `read` capability, usable as the pointee of `pointer`
(src/index.js passes either a full value type or a bare object exposing
`read(ptr, parameters)`). -/
structure PointeeReader where
  read : Memory → Nat → Option Params → ParseResult

/-- A value type of the registry: `parse(rawValue, parameters)` decodes a raw
argument word, `read(ptr)` reads the value through a pointer
(src/index.js lines 311-398).  `parse` receives the raw word; `none` for the
parameters models a JavaScript call that omits the second argument. -/
structure ValueType where
  parse : Memory → Nat → Option Params → ParseResult
  read : Memory → Nat → Option Params → ParseResult

/-- JavaScript `NativePointer.toInt32()`: the low 32 bits of the word,
interpreted as a signed 32-bit integer. -/
def toInt32 (raw : Nat) : Int :=
  let m : Nat := raw % 2 ^ 32
  if m < 2 ^ 31 then (m : Int) else (m : Int) - 2 ^ 32

/-- src/index.js `bool()`:
`parse` is `!!rawValue.toInt32()`, `read` is `!!Memory.readU8(ptr)`. -/
def bool : ValueType :=
  { parse := fun _ rawValue _ =>
      (Except.ok (Value.vBool (toInt32 rawValue != 0)), [])
    read := fun mem ptr _ =>
      (Except.ok (Value.vBool (mem.readU8 ptr != 0)),
       [MemOp.mk "readU8" ptr Value.vUndefined]) }

/-- src/index.js `byte()`:
`parse` is `rawValue.toInt32() & 0xff`, `read` is `Memory.readU8(ptr)`. -/
def byte : ValueType :=
  { parse := fun _ rawValue _ =>
      (Except.ok (Value.vInt (Int.land (toInt32 rawValue) 0xff)), [])
    read := fun mem ptr _ =>
      (Except.ok (Value.vInt (mem.readU8 ptr)),
       [MemOp.mk "readU8" ptr Value.vUndefined]) }

/-- src/index.js `short()`:
`parse` is `rawValue.toInt32() & 0xffff`, `read` is `Memory.readShort(ptr)`. -/
def short : ValueType :=
  { parse := fun _ rawValue _ =>
      (Except.ok (Value.vInt (Int.land (toInt32 rawValue) 0xffff)), [])
    read := fun mem ptr _ =>
      (Except.ok (Value.vInt (mem.readShort ptr)),
       [MemOp.mk "readShort" ptr Value.vUndefined]) }

/-- src/index.js `int()`:
`parse` is `rawValue.toInt32()`, `read` is `Memory.readInt(ptr)`. -/
def int : ValueType :=
  { parse := fun _ rawValue _ =>
      (Except.ok (Value.vInt (toInt32 rawValue)), [])
    read := fun mem ptr _ =>
      (Except.ok (Value.vInt (mem.readInt ptr)),
       [MemOp.mk "readInt" ptr Value.vUndefined]) }

/-- src/index.js `pointer(pointee)`: with a pointee, `parse` returns `null`
for a null raw pointer and otherwise delegates to `pointee.read(rawValue,
parameters)`; without a pointee, `parse` returns the raw word itself.
`read` is `Memory.readPointer(ptr)`. -/
def pointer (pointee : Option PointeeReader) : ValueType :=
  { parse := fun mem rawValue parameters =>
      match pointee with
      | some p =>
        if rawValue = 0 then
          (Except.ok Value.vNull, [])
        else
          p.read mem rawValue parameters
      | none => (Except.ok (Value.vPtr rawValue), [])
    read := fun mem ptr _ =>
      (Except.ok (Value.vPtr (mem.readPointer ptr)),
       [MemOp.mk "readPointer" ptr Value.vUndefined]) }

/-- src/index.js `byteArray()`: a pointer whose inner reader is
`Memory.readByteArray(ptr, parameters.length)`.  When the call passes no
`parameters`, the JavaScript property access `parameters.length` throws a
`TypeError`; there is no `-1` fallback, unlike the string types. -/
def byteArray : ValueType :=
  pointer (some
    { read := fun mem ptr parameters =>
        match parameters with
        | none => (Except.error "TypeError: cannot read length of undefined", [])
        | some ps =>
          (Except.ok (mem.readByteArray ptr (getProp ps "length")),
           [MemOp.mk "readByteArray" ptr (getProp ps "length")]) })

/-- src/index.js `utf8()`: a pointer whose inner reader is
`Memory.readUtf8String(ptr, length)` with `length = -1` (read to the
terminator) when no `parameters` object was passed. -/
def utf8 : ValueType :=
  pointer (some
    { read := fun mem ptr parameters =>
        let length : Value :=
          match parameters with
          | none => Value.vInt (-1)
          | some ps => getProp ps "length"
        (Except.ok (mem.readUtf8String ptr length),
         [MemOp.mk "readUtf8String" ptr length]) })

/-- src/index.js `utf16()`: like `utf8` but reading a UTF-16 string. -/
def utf16 : ValueType :=
  pointer (some
    { read := fun mem ptr parameters =>
        let length : Value :=
          match parameters with
          | none => Value.vInt (-1)
          | some ps => getProp ps "length"
        (Except.ok (mem.readUtf16String ptr length),
         [MemOp.mk "readUtf16String" ptr length]) })

/-- src/index.js `trace.types.BOOL`. -/
def BOOL : ValueType := bool
/-- src/index.js `trace.types.BYTE`. -/
def BYTE : ValueType := byte
/-- src/index.js `trace.types.SHORT`. -/
def SHORT : ValueType := short
/-- src/index.js `trace.types.INT`. -/
def INT : ValueType := int
/-- src/index.js `trace.types.POINTER` (built as `pointer()`, no pointee). -/
def POINTER : ValueType := pointer none
/-- src/index.js `trace.types.BYTE_ARRAY`. -/
def BYTE_ARRAY : ValueType := byteArray
/-- src/index.js `trace.types.UTF8`. -/
def UTF8 : ValueType := utf8
/-- src/index.js `trace.types.UTF16`. -/
def UTF16 : ValueType := utf16

/-- src/index.js class `Event` (lines 400-417): a name, a bag of named
argument values and an optional result value.  The `args` object is modelled
extensionally as a function to `Option Value`, `none` meaning the key is
absent from the object. -/
structure Event where
  name : String
  args : String → Option Value
  result : Option Value

/-- src/index.js `new Event(name)`: fresh event with an empty `args` object
and no result yet. -/
def Event.new (name : String) : Event :=
  { name := name, args := fun _ => none, result := none }

/-- src/index.js `Event.get(key)`:
`(key === 'result') ? this.result : this.args[key]`; a missing key yields
JavaScript `undefined`. -/
def Event.get (e : Event) (key : String) : Value :=
  if key = "result" then (e.result).getD Value.vUndefined
  else (e.args key).getD Value.vUndefined

/-- src/index.js `Event.set(key, value)`: `"result"` is routed to the
`result` field, every other key is stored in the `args` object. -/
def Event.set (e : Event) (key : String) (value : Value) : Event :=
  if key = "result" then
    { e with result := some value }
  else
    { e with args := fun k => if k = key then some value else e.args k }

/-- The three argument directions (src/index.js symbols IN, OUT, IN_OUT). -/
inductive Direction
  | IN
  | OUT
  | IN_OUT
  deriving DecidableEq

/-- src/index.js `bind(property, value)`: a dependent-type binding, naming
the type parameter to fill (`property`) and the already-decoded source value
to fill it from (`value`). -/
structure Binding where
  property : String
  value : String
  deriving DecidableEq

/-- src/index.js `when(value, predicate)`: a presence condition on the
already-decoded value named `value`. -/
structure Condition where
  value : String
  predicate : Value → Bool

/-- The `type` field of a descriptor: either a plain value type, or the
dependent two-element array `[type, binding]` used by `bind`-ed arguments
(distinguished in src/index.js with `isArray(type)`). -/
inductive ArgType
  | plain (t : ValueType)
  | dependent (t : ValueType) (b : Binding)

/-- src/index.js `dependencies(direction, type, condition)` (lines 293-309):
pushes `'$out'` when the direction is `OUT`, then the binding's source-value
name for a dependent type, then the condition's source-value name. -/
def dependencies (direction : Direction) (type : ArgType)
    (condition : Option Condition) : List String :=
  (if direction = Direction.OUT then ["$out"] else []) ++
  (match type with
   | ArgType.dependent _ binding => [binding.value]
   | ArgType.plain _ => []) ++
  (match condition with
   | some c => [c.value]
   | none => [])

/-- An argument descriptor (src/index.js `arg`, lines 259-269). -/
structure Arg where
  direction : Direction
  name : String
  type : ArgType
  condition : Option Condition
  requires : List String

/-- src/index.js `arg(direction, name, type, condition)`. -/
def arg (direction : Direction) (name : String) (type : ArgType)
    (condition : Option Condition) : Arg :=
  { direction := direction
    name := name
    type := type
    condition := condition
    requires := dependencies direction type condition }

/-- src/index.js `argIn(name, type, condition)`. -/
def argIn (name : String) (type : ArgType) (condition : Option Condition) : Arg :=
  arg Direction.IN name type condition

/-- src/index.js `argOut(name, type, condition)`. -/
def argOut (name : String) (type : ArgType) (condition : Option Condition) : Arg :=
  arg Direction.OUT name type condition

/-- src/index.js `argInOut(name, type, condition)`. -/
def argInOut (name : String) (type : ArgType) (condition : Option Condition) : Arg :=
  arg Direction.IN_OUT name type condition

/-- src/index.js `retval(type, condition)`: an out-argument named "result". -/
def retval (type : ArgType) (condition : Option Condition) : Arg :=
  argOut "result" type condition

/-- src/index.js `func(name, ret, args)`; `ret` is `null` (here `none`) when
the function schema has no return-value descriptor. -/
structure Func where
  name : String
  ret : Option Arg
  args : List Arg

/-- src/index.js `func` constructor. -/
def func (name : String) (ret : Option Arg) (args : List Arg) : Func :=
  { name := name, ret := ret, args := args }

/-- The descriptor list the compiler works on: `func.args.slice()` with
`func.ret` pushed when present (src/index.js lines 146-149). -/
def specArgs (f : Func) : List Arg :=
  f.args ++ (match f.ret with
             | some r => [r]
             | none => [])

/-- A compiled decode action, i.e. the `[fn, params]` pair built by
`computeAction` (src/index.js lines 189-205): the argument position index,
the output name, the type's parse capability and the binding/condition data
the four action shapes close over. -/
inductive Action
  | readValue (index : Nat) (name : String) (t : ValueType)
  | readValueConditionally (index : Nat) (name : String) (t : ValueType)
      (condition : Condition)
  | readValueWithDependentType (index : Nat) (name : String) (t : ValueType)
      (binding : Binding)
  | readValueWithDependentTypeConditionally (index : Nat) (name : String)
      (t : ValueType) (binding : Binding) (condition : Condition)

/-- src/index.js `computeAction(arg, index)`: picks one of the four action
shapes from `{dependent type?, condition?}`. -/
def computeAction (a : Arg) (index : Nat) : Action :=
  match a.type, a.condition with
  | ArgType.dependent t binding, some condition =>
    Action.readValueWithDependentTypeConditionally index a.name t binding condition
  | ArgType.dependent t binding, none =>
    Action.readValueWithDependentType index a.name t binding
  | ArgType.plain t, some condition =>
    Action.readValueConditionally index a.name t condition
  | ArgType.plain t, none =>
    Action.readValue index a.name t

/-- One step of the `args.forEach` body inside `computeActions`
(src/index.js lines 157-166 and 174-183): a descriptor whose name is already
satisfied is skipped; one whose remaining unsatisfied dependencies
(`arg.requires.filter(dep => !satisfied.has(dep))`) are empty is compiled and
appended, and its name becomes satisfied.  The state is the pair
(action list being built, satisfied name set as a duplicate-free list). -/
def stepOne (acc : List Action × List String) (p : Nat × Arg) :
    List Action × List String :=
  if p.2.name ∈ acc.2 then acc
  else if (p.2.requires.filter (fun dep => decide (dep ∉ acc.2))).length = 0 then
    (acc.1 ++ [computeAction p.2 p.1], acc.2 ++ [p.2.name])
  else acc

/-- One full `args.forEach(...)` scan in declaration order. -/
def scanStep (indexed : List (Nat × Arg)) (st : List Action × List String) :
    List Action × List String :=
  indexed.foldl stepOne st

/-- The `do { ... } while (satisfied.size !== previousSatisfiedSize)` loop of
`computeActions`: rescan until a full scan adds nothing.  The fuel
`args.length + 1` always suffices (each productive scan satisfies at least
one more descriptor), so this equals the JavaScript fixed point. -/
def fixScan (fuel : Nat) (indexed : List (Nat × Arg))
    (st : List Action × List String) : List Action × List String :=
  match fuel with
  | 0 => st
  | Nat.succ fuel =>
    let st' := scanStep indexed st
    if st'.2.length = st.2.length then st' else fixScan fuel indexed st'

/-- `satisfied.add(name)` on the JavaScript `Set`: a no-op when present. -/
def addName (s : List String) (x : String) : List String :=
  if x ∈ s then s else s ++ [x]

/-- First fixed-point pass of `computeActions` (entry actions), starting
from an empty satisfied set. -/
def entryPass (f : Func) : List Action × List String :=
  fixScan ((specArgs f).length + 1) (specArgs f).enum ([], [])

/-- Second fixed-point pass (exit actions), continuing from the satisfied
set left by the first pass with the sentinel `'$out'` added. -/
def exitPass (f : Func) : List Action × List String :=
  fixScan ((specArgs f).length + 1) (specArgs f).enum
    ([], addName (entryPass f).2 "$out")

/-- src/index.js `computeActions(func, inputActions, outputActions)`
(lines 145-187): returns
`(!args.some(arg => !satisfied.has(arg.name)), inputActions, outputActions)`. -/
def computeActions (f : Func) : Bool × List Action × List Action :=
  (!((specArgs f).any (fun a => decide (a.name ∉ (exitPass f).2))),
   (entryPass f).1,
   (exitPass f).1)

/-- Execution of one compiled action against the captured raw words and the
event (src/index.js `readValue*`, lines 207-237).  The dependent shapes build
the one-property `typeParameters` object from the event; the conditional
shapes consult the condition's predicate on the already-decoded source value
and leave the event untouched when it is falsy. -/
def runAction (mem : Memory) (values : List Nat) (ev : Event) :
    Action → Except String Event × List MemOp
  | Action.readValue index name t =>
    match t.parse mem (values.getD index 0) none with
    | (Except.ok v, log) => (Except.ok (ev.set name v), log)
    | (Except.error e, log) => (Except.error e, log)
  | Action.readValueConditionally index name t condition =>
    if condition.predicate (ev.get condition.value) then
      match t.parse mem (values.getD index 0) none with
      | (Except.ok v, log) => (Except.ok (ev.set name v), log)
      | (Except.error e, log) => (Except.error e, log)
    else (Except.ok ev, [])
  | Action.readValueWithDependentType index name t binding =>
    match t.parse mem (values.getD index 0)
        (some [(binding.property, ev.get binding.value)]) with
    | (Except.ok v, log) => (Except.ok (ev.set name v), log)
    | (Except.error e, log) => (Except.error e, log)
  | Action.readValueWithDependentTypeConditionally index name t binding condition =>
    if condition.predicate (ev.get condition.value) then
      match t.parse mem (values.getD index 0)
          (some [(binding.property, ev.get binding.value)]) with
      | (Except.ok v, log) => (Except.ok (ev.set name v), log)
      | (Except.error e, log) => (Except.error e, log)
    else (Except.ok ev, [])

/-- Sequential execution of a compiled action list (the `for` loops in the
hook bodies); a thrown exception aborts the remaining actions. -/
def runActions (mem : Memory) (values : List Nat) :
    Event → List Action → Except String Event × List MemOp
  | ev, [] => (Except.ok ev, [])
  | ev, a :: rest =>
    match runAction mem values ev a with
    | (Except.ok ev', log) =>
      match runActions mem values ev' rest with
      | (res, log') => (res, log ++ log')
    | (Except.error e, log) => (Except.error e, log)

/-- Outcome of running one hook body: the `onError` calls it made, the
`onEvent` deliveries it made, the exception (if any) that escaped it, and the
memory reads performed. -/
structure HookOutcome where
  errors : List String
  delivered : List Event
  thrown : Option String
  reads : List MemOp

/-- The `onEnter` hook body built by `makeInterceptor` (src/index.js lines
107-124): capture the raw argument words, build a fresh event, run the entry
actions, then the optional user enter hook; the resulting per-invocation
state (values, event) is stashed for the matching exit.  Note the body
contains no `onError` call: a thrown exception simply escapes. -/
def runOnEnter (mem : Memory) (inputActions : List Action)
    (userEnter : Option (Event → List Nat → Except String Event))
    (fname : String) (values : List Nat) :
    Except String (List Nat × Event) × List MemOp :=
  match runActions mem values (Event.new fname) inputActions with
  | (Except.error e, log) => (Except.error e, log)
  | (Except.ok ev, log) =>
    match userEnter with
    | none => (Except.ok (values, ev), log)
    | some h =>
      match h ev values with
      | Except.error e => (Except.error e, log)
      | Except.ok ev2 => (Except.ok (values, ev2), log)

/-- The `onLeave` hook body built by `makeInterceptor` (src/index.js lines
125-140): push the raw return word onto the captured values, run the exit
actions, then the optional user leave hook, then deliver the event through
`onEvent`.  The body contains no `try`/`catch` and no `onError` call, so the
`errors` channel stays empty on every path and a throwing action or user
hook escapes as `thrown`, skipping the delivery. -/
def runOnLeave (mem : Memory) (outputActions : List Action)
    (userLeave : Option (Event → Nat → Except String Event))
    (values : List Nat) (ev : Event) (rv : Nat) : HookOutcome :=
  let values' := values ++ [rv]
  match runActions mem values' ev outputActions with
  | (Except.error e, log) =>
    { errors := [], delivered := [], thrown := some e, reads := log }
  | (Except.ok ev', log) =>
    match userLeave with
    | none => { errors := [], delivered := [ev'], thrown := none, reads := log }
    | some h =>
      match h ev' rv with
      | Except.error e =>
        { errors := [], delivered := [], thrown := some e, reads := log }
      | Except.ok ev2 =>
        { errors := [], delivered := [ev2], thrown := none, reads := log }

/-- Observable setup-time effects of `trace`: calls to the `onError` channel
(split by error kind, mirroring the three `new Error(...)` sites) and calls
to the external `Interceptor.attach` collaborator. -/
inductive SetupEffect
  | resolutionError (module : String) (funcName : String)
  | circularError (funcName : String)
  | vtableReadError (offset : Nat)
  | vtableRead (addr : Nat)
  | attached (impl : Nat) (funcName : String)
      (inputActions : List Action) (outputActions : List Action)

/-- The external setup-time collaborators: exported-symbol resolution
(`Module.findExportByName`), the fallible vtable pointer read
(`Memory.readPointer` under `try`/`catch`) and `Process.pointerSize`. -/
structure Collab where
  findExport : String → String → Option Nat
  readPointer : Nat → Except String Nat
  pointerSize : Nat

/-- The interceptor made by `makeInterceptor` (src/index.js lines 92-142),
restricted to its setup-time behaviour: on a failed `computeActions` it
reports the circular-dependency error and attaches nothing; otherwise it
attaches the hook pair compiled from the schema. -/
def intercept (f : Func) (impl : Nat) : List SetupEffect :=
  let r := computeActions f
  if !r.1 then [SetupEffect.circularError f.name]
  else [SetupEffect.attached impl f.name r.2.1 r.2.2]

/-- Module mode of `trace` (src/index.js lines 19-30): resolve each function
schema by exported-symbol name; on failure report and skip only that one,
otherwise hand it to the interceptor. -/
def traceModule (collab : Collab) (moduleName : String) :
    List Func → List SetupEffect
  | [] => []
  | f :: rest =>
    (match collab.findExport moduleName f.name with
     | none => [SetupEffect.resolutionError moduleName f.name]
     | some impl => intercept f impl) ++ traceModule collab moduleName rest

/-- A vtable entry list element: a function schema or the `padding(n)`
marker `[n]` (recognized in src/index.js with `isArray(entry)`). -/
inductive Entry
  | fn (f : Func)
  | pad (n : Nat)

/-- src/index.js `padding(n)`, returning the `[n]` marker. -/
def padding (n : Nat) : Entry :=
  Entry.pad n

/-- Vtable mode of `trace` (src/index.js lines 31-53): walk the entries from
the given offset; padding advances the offset by `n * pointerSize` without
reading memory; a function entry reads the slot's implementation pointer at
`vtable + offset` (logged as a `vtableRead` effect), intercepts, and advances
by one pointer size.  A failed read reports once and `break`s the walk. -/
def vtableWalk (collab : Collab) (vtable : Nat) :
    List Entry → Nat → List SetupEffect
  | [], _ => []
  | Entry.pad n :: rest, offset =>
    vtableWalk collab vtable rest (offset + n * collab.pointerSize)
  | Entry.fn f :: rest, offset =>
    match collab.readPointer (vtable + offset) with
    | Except.error _ => [SetupEffect.vtableReadError offset]
    | Except.ok impl =>
      SetupEffect.vtableRead (vtable + offset) ::
        (intercept f impl ++ vtableWalk collab vtable rest (offset + collab.pointerSize))

/-- Direct dependency relation between descriptor names induced by a
schema's `requires` sets: `depRelN args x y` holds when the descriptor named
`y` directly requires the name `x`. -/
def depRelN (args : List Arg) (x y : String) : Prop :=
  ∃ b, b ∈ args ∧ b.name = y ∧ x ∈ b.requires

/-- A dependency cycle in a schema: a nonempty subset of descriptors each of
which requires the name of another member of the subset. -/
def hasCycle (args : List Arg) : Prop :=
  ∃ C : List Arg, C ≠ [] ∧ (∀ a ∈ C, a ∈ args) ∧
    ∀ a ∈ C, ∃ d ∈ a.requires, ∃ b, b ∈ C ∧ b.name = d

/-- Number of descriptors whose name is not yet satisfied; the decreasing
measure of the fixed-point rescan. -/
def unsatCount (indexed : List (Nat × Arg)) (s : List String) : Nat :=
  (indexed.filter (fun p => decide ((Prod.snd p).name ∉ s))).length

/-- A concrete memory collaborator used by the witness theorems. -/
def memW : Memory :=
  { readPointer := fun a => a + 1
    readU8 := fun _ => 1
    readShort := fun _ => 2
    readInt := fun _ => 3
    readByteArray := fun _ _ => Value.vBytes [1, 2]
    readUtf8String := fun _ _ => Value.vStr "s8"
    readUtf16String := fun _ _ => Value.vStr "s16" }

/-- A concrete setup-time collaborator used by the witness theorems. -/
def collabW : Collab :=
  { findExport := fun _ _ => some 4096
    readPointer := fun a => Except.ok (a + 1)
    pointerSize := 8 }

/-- A concrete acyclic schema: `func "f" [argIn a, argOut b] ret INT`. -/
def wf1 : Func :=
  func "f" (some (retval (ArgType.plain INT) none))
    [argIn "a" (ArgType.plain INT) none, argOut "b" (ArgType.plain INT) none]

/-- A concrete always-true predicate for witness conditions. -/
def predW : Value → Bool := fun _ => true

/-- First half of a two-descriptor condition cycle: `a` is conditional on `b`. -/
def cycA : Arg :=
  argIn "a" (ArgType.plain INT) (some { value := "b", predicate := predW })

/-- Second half of the cycle: `b` is conditional on `a`. -/
def cycB : Arg :=
  argIn "b" (ArgType.plain INT) (some { value := "a", predicate := predW })

/-- A concrete schema whose two descriptors form a condition cycle. -/
def cycF : Func :=
  func "g" none [cycA, cycB]

/-- A concrete condition whose source value is "flag" and whose predicate
checks for the integer 1. -/
def condW : Condition :=
  { value := "flag", predicate := fun v => v == Value.vInt 1 }

/-- A concrete length binding used by witness theorems. -/
def bindW : Binding :=
  { property := "length", value := "len" }

/-- A concrete user leave hook that always raises, used by witness theorems. -/
def hookW : Event → Nat → Except String Event :=
  fun _ _ => Except.error "user hook raised"

/-- A concrete event whose "flag" field is the integer 1, so that `condW`'s
predicate evaluates to true on it. -/
def evW2 : Event :=
  (Event.new "e").set "flag" (Value.vInt 1)

example : computeActions (func "f" none [argInOut "x" (ArgType.plain INT) none]) =
    (true, [Action.readValue 0 "x" INT], []) := rfl

example : computeActions wf1 =
    (true,
     [Action.readValue 0 "a" INT],
     [Action.readValue 1 "b" INT, Action.readValue 2 "result" INT]) := rfl

example : computeActions cycF = (false, [], []) := rfl

/-- C5: decoding a null raw pointer with any pointer-family type that has an
inner reader (byte buffer, UTF-8/UTF-16 string, pointer-to-T for any T)
yields the explicit `null` decoded value and performs no memory read. -/
theorem c5_null_pointer_no_read (inner : PointeeReader) (mem : Memory)
    (params : Option Params) :
    (pointer (some inner)).parse mem 0 params = (Except.ok Value.vNull, []) ∧
    byteArray.parse mem 0 params = (Except.ok Value.vNull, []) ∧
    utf8.parse mem 0 params = (Except.ok Value.vNull, []) ∧
    utf16.parse mem 0 params = (Except.ok Value.vNull, []) :=
  ⟨rfl, rfl, rfl, rfl⟩

/-- C10: the plain `POINTER` value type (constructed with no inner type)
parses every raw word, including the null pointer, to the word itself and
never invokes the memory-read collaborator. -/
theorem c10_plain_pointer_identity (mem : Memory) (raw : Nat)
    (params : Option Params) :
    (pointer none).parse mem raw params = (Except.ok (Value.vPtr raw), []) ∧
    POINTER.parse mem raw params = (Except.ok (Value.vPtr raw), []) :=
  ⟨rfl, rfl⟩

/-- C9: for a non-null raw pointer and no supplied type parameters,
`BYTE_ARRAY.parse` throws (its inner reader unconditionally accesses
`parameters.length`), while `UTF8`/`UTF16` fall back to the unbounded `-1`
length and read successfully; a length binding is therefore a necessary
precondition for decoding a non-null byte buffer. -/
theorem c9_byteArray_length_required (mem : Memory) (raw : Nat) (h : raw ≠ 0) :
    byteArray.parse mem raw none =
      (Except.error "TypeError: cannot read length of undefined", []) ∧
    utf8.parse mem raw none =
      (Except.ok (mem.readUtf8String raw (Value.vInt (-1))),
       [MemOp.mk "readUtf8String" raw (Value.vInt (-1))]) ∧
    utf16.parse mem raw none =
      (Except.ok (mem.readUtf16String raw (Value.vInt (-1))),
       [MemOp.mk "readUtf16String" raw (Value.vInt (-1))]) := by
  refine ⟨?_, ?_, ?_⟩ <;> simp [byteArray, utf8, utf16, pointer, h]

/-- C9 witness: the non-null raw word 1 with the concrete collaborator. -/
theorem c9_witness :
    byteArray.parse memW 1 none =
      (Except.error "TypeError: cannot read length of undefined", []) ∧
    utf8.parse memW 1 none =
      (Except.ok (memW.readUtf8String 1 (Value.vInt (-1))),
       [MemOp.mk "readUtf8String" 1 (Value.vInt (-1))]) ∧
    utf16.parse memW 1 none =
      (Except.ok (memW.readUtf16String 1 (Value.vInt (-1))),
       [MemOp.mk "readUtf16String" 1 (Value.vInt (-1))]) :=
  c9_byteArray_length_required memW 1 (by decide)

/-- C8: `Event.set` with key `"result"` stores into the `result` field and
leaves the `args` object unchanged; with any other key it stores only under
that key of `args`, leaving `result` and every other `args` entry unchanged;
`Event.get` is the matching reader. -/
theorem c8_event_get_set (e : Event) (k k' : String) (v : Value)
    (hk : k ≠ "result") (hk' : k' ≠ k) :
    (e.set "result" v).result = some v ∧
    (e.set "result" v).args = e.args ∧
    (e.set k v).args k = some v ∧
    (e.set k v).result = e.result ∧
    (e.set k v).args k' = e.args k' ∧
    e.get "result" = (e.result).getD Value.vUndefined ∧
    e.get k = (e.args k).getD Value.vUndefined := by
  refine ⟨?_, ?_, ?_, ?_, ?_, ?_, ?_⟩ <;> simp [Event.set, Event.get, hk, hk']

/-- C8 witness: a concrete event and keys. -/
theorem c8_witness :
    ((Event.new "e").set "result" (Value.vInt 7)).result = some (Value.vInt 7) ∧
    ((Event.new "e").set "result" (Value.vInt 7)).args = (Event.new "e").args ∧
    ((Event.new "e").set "k1" (Value.vInt 7)).args "k1" = some (Value.vInt 7) ∧
    ((Event.new "e").set "k1" (Value.vInt 7)).result = (Event.new "e").result ∧
    ((Event.new "e").set "k1" (Value.vInt 7)).args "k2" = (Event.new "e").args "k2" ∧
    (Event.new "e").get "result" = ((Event.new "e").result).getD Value.vUndefined ∧
    (Event.new "e").get "k1" = ((Event.new "e").args "k1").getD Value.vUndefined :=
  c8_event_get_set (Event.new "e") "k1" "k2" (Value.vInt 7) (by decide) (by decide)

/-- C6: a conditional argument (plain or dependent-typed) whose predicate,
applied to the already-decoded source value, is false leaves the event
exactly unchanged, so its name is entirely absent from the event's field set
if it was absent before; when the predicate is true the decoded value is
stored under the name — for the plain conditional shape and for the
dependent-typed conditional shape (whose parse receives the one-property
`typeParameters` object built from the binding) alike. -/
theorem c6_conditional_field_absence (mem : Memory) (values : List Nat)
    (ev : Event) (index : Nat) (nm : String) (t : ValueType) (binding : Binding)
    (condition : Condition) (v v2 : Value) (log log2 : List MemOp)
    (hnm : nm ≠ "result") :
    (condition.predicate (ev.get condition.value) = false →
      runAction mem values ev (Action.readValueConditionally index nm t condition) =
        (Except.ok ev, []) ∧
      runAction mem values ev
          (Action.readValueWithDependentTypeConditionally index nm t binding condition) =
        (Except.ok ev, [])) ∧
    (condition.predicate (ev.get condition.value) = true →
      t.parse mem (values.getD index 0) none = (Except.ok v, log) →
      runAction mem values ev (Action.readValueConditionally index nm t condition) =
        (Except.ok (ev.set nm v), log)) ∧
    (condition.predicate (ev.get condition.value) = true →
      t.parse mem (values.getD index 0)
          (some [(binding.property, ev.get binding.value)]) = (Except.ok v2, log2) →
      runAction mem values ev
          (Action.readValueWithDependentTypeConditionally index nm t binding condition) =
        (Except.ok (ev.set nm v2), log2)) ∧
    (ev.set nm v).args nm = some v := by
  refine ⟨fun hf => ⟨?_, ?_⟩, fun ht hp => ?_, fun ht hp => ?_, ?_⟩
  · simp [runAction, hf]
  · simp [runAction, hf]
  · dsimp only [runAction]
    rw [if_pos ht, hp]
  · dsimp only [runAction]
    rw [if_pos ht, hp]
  · simp [Event.set, hnm]

/-- C6 witness: a concrete false-predicate run (the event has no "flag"
field, so `condW`'s predicate sees `undefined` and yields false), a concrete
true-predicate run of both conditional shapes on `evW2` (whose "flag" field
is 1), and the storage equation for `Event.set`. -/
theorem c6_witness :
    runAction memW [7] (Event.new "e")
        (Action.readValueConditionally 0 "n" INT condW) =
      (Except.ok (Event.new "e"), []) ∧
    runAction memW [7] (Event.new "e")
        (Action.readValueWithDependentTypeConditionally 0 "n" INT bindW condW) =
      (Except.ok (Event.new "e"), []) ∧
    runAction memW [7] evW2
        (Action.readValueConditionally 0 "n" INT condW) =
      (Except.ok (evW2.set "n" (Value.vInt 7)), []) ∧
    runAction memW [7] evW2
        (Action.readValueWithDependentTypeConditionally 0 "n" INT bindW condW) =
      (Except.ok (evW2.set "n" (Value.vInt 7)), []) ∧
    ((Event.new "e").set "n" (Value.vInt 3)).args "n" = some (Value.vInt 3) := by
  have h1 := c6_conditional_field_absence memW [7] (Event.new "e") 0 "n" INT bindW
    condW (Value.vInt 3) (Value.vInt 3) [] [] (by decide)
  have h2 := c6_conditional_field_absence memW [7] evW2 0 "n" INT bindW
    condW (Value.vInt 7) (Value.vInt 7) [] [] (by decide)
  exact ⟨(h1.1 rfl).1, (h1.1 rfl).2, h2.2.1 rfl rfl, h2.2.2.1 rfl rfl, h1.2.2.2⟩

/-- C1 counterexample: for an `argInOut` descriptor (direction InOut, no
binding, no condition) the `requires` set does not contain `"$out"` even
though the direction is not In — refuting the claimed equivalence. -/
theorem c1_counterexample :
    ¬ (("$out" ∈ (argInOut "x" (ArgType.plain INT) none).requires) ↔
       (argInOut "x" (ArgType.plain INT) none).direction ≠ Direction.IN) := by
  decide

/-- C1 (amended): `requires` contains the pseudo-dependency `"$out"` exactly
when the direction is `Out` (provided the optional binding and condition do
not themselves name `"$out"`); consequently an InOut descriptor with no
binding or condition is scheduled as an entry-time action, not an exit-time
action. -/
theorem c1_requires_out_only (dir : Direction) (nm : String) (ty : ArgType)
    (cond : Option Condition) (t : ValueType)
    (hb : ∀ vt b, ty = ArgType.dependent vt b → b.value ≠ "$out")
    (hc : ∀ c, cond = some c → c.value ≠ "$out") :
    ("$out" ∈ (arg dir nm ty cond).requires ↔ dir = Direction.OUT) ∧
    computeActions (func "f" none [argInOut "x" (ArgType.plain t) none]) =
      (true, [Action.readValue 0 "x" t], []) := by
  constructor
  · rcases ty with t' | ⟨t', b⟩ <;> rcases cond with _ | c
    · cases dir <;> simp [arg, dependencies]
    · have h2 := hc c rfl
      cases dir <;> simp [arg, dependencies, Ne.symm h2]
    · have h1 := hb t' b rfl
      cases dir <;> simp [arg, dependencies, Ne.symm h1]
    · have h1 := hb t' b rfl
      have h2 := hc c rfl
      cases dir <;> simp [arg, dependencies, Ne.symm h1, Ne.symm h2]
  · rfl

/-- C1 witness: the InOut instance with no binding and no condition. -/
theorem c1_witness :
    ("$out" ∈ (arg Direction.IN_OUT "y" (ArgType.plain INT) none).requires ↔
      Direction.IN_OUT = Direction.OUT) :=
  (c1_requires_out_only Direction.IN_OUT "y" (ArgType.plain INT) none INT
    (fun vt b h => by cases h) (fun c h => by cases h)).1

/-- C2 counterexample: a concrete invocation whose single exit action throws
(a `BYTE_ARRAY` decode with no length binding on a non-null word).  The
exception escapes the exit hook while the `onError` channel receives nothing
— the failure does not surface through `on_error` — and the event is not
delivered. -/
theorem c2_counterexample :
    (runOnLeave memW [Action.readValue 0 "b" byteArray] none [] (Event.new "h") 1).thrown =
      some "TypeError: cannot read length of undefined" ∧
    (runOnLeave memW [Action.readValue 0 "b" byteArray] none [] (Event.new "h") 1).errors = [] ∧
    (runOnLeave memW [Action.readValue 0 "b" byteArray] none [] (Event.new "h") 1).delivered = [] :=
  ⟨rfl, rfl, rfl⟩

/-- C2 (amended): the exit hook makes no `onError` call on any path, so a
run-time failure — whether an exit decode action throws or the user leave
hook raises — propagates out of the hook as an exception instead of
surfacing through the error channel; the partially-filled event is not
delivered to `onEvent` in either case; and since compiled actions and the
attachment are immutable data, an invocation's outcome is a pure function of
its own inputs, leaving subsequent invocations unaffected. -/
theorem c2_exit_failure_not_reported (mem : Memory) (acts : List Action)
    (userLeave : Option (Event → Nat → Except String Event))
    (hk : Event → Nat → Except String Event)
    (values : List Nat) (ev ev' : Event) (rv : Nat) (e : String) :
    ((runOnLeave mem acts userLeave values ev rv).errors = []) ∧
    ((runActions mem (values ++ [rv]) ev acts).1 = Except.error e →
      (runOnLeave mem acts userLeave values ev rv).thrown = some e ∧
      (runOnLeave mem acts userLeave values ev rv).delivered = []) ∧
    (userLeave = some hk →
      (runActions mem (values ++ [rv]) ev acts).1 = Except.ok ev' →
      hk ev' rv = Except.error e →
      (runOnLeave mem acts userLeave values ev rv).thrown = some e ∧
      (runOnLeave mem acts userLeave values ev rv).delivered = []) := by
  refine ⟨?_, ?_, ?_⟩
  · unfold runOnLeave
    rcases h : runActions mem (values ++ [rv]) ev acts with ⟨res, log⟩
    rcases res with er | ev2
    · simp [h]
    · rcases userLeave with _ | hk2
      · simp [h]
      · rcases h2 : hk2 ev2 rv with er2 | ev3 <;> simp [h, h2]
  · intro herr
    unfold runOnLeave
    rcases h : runActions mem (values ++ [rv]) ev acts with ⟨res, log⟩
    rw [h] at herr
    rcases res with er | ev2
    · have h3 : er = e := by injection herr
      subst h3
      constructor <;> simp [h]
    · exact absurd herr (by simp)
  · intro hul hok hhk
    subst hul
    unfold runOnLeave
    rcases h : runActions mem (values ++ [rv]) ev acts with ⟨res, log⟩
    rw [h] at hok
    rcases res with er | ev2
    · exact absurd hok (by simp)
    · have h4 : ev2 = ev' := by injection hok
      subst h4
      constructor <;> simp [h, hhk]

/-- C2 witness: one concrete invocation whose exit action throws (nothing
reaches `onError`, nothing is delivered) and one whose user leave hook
raises (likewise), each discharging the theorem's inner hypotheses by
evaluation. -/
theorem c2_witness :
    (runOnLeave memW [Action.readValue 0 "b" byteArray] none [] (Event.new "w") 2).errors = [] ∧
    (runOnLeave memW [Action.readValue 0 "b" byteArray] none [] (Event.new "w") 2).thrown =
      some "TypeError: cannot read length of undefined" ∧
    (runOnLeave memW [Action.readValue 0 "b" byteArray] none [] (Event.new "w") 2).delivered = [] ∧
    (runOnLeave memW [] (some hookW) [] (Event.new "w2") 3).errors = [] ∧
    (runOnLeave memW [] (some hookW) [] (Event.new "w2") 3).thrown = some "user hook raised" ∧
    (runOnLeave memW [] (some hookW) [] (Event.new "w2") 3).delivered = [] := by
  have h1 := c2_exit_failure_not_reported memW [Action.readValue 0 "b" byteArray]
    none hookW [] (Event.new "w") (Event.new "w") 2
    "TypeError: cannot read length of undefined"
  have h2 := c2_exit_failure_not_reported memW [] (some hookW) hookW []
    (Event.new "w2") (Event.new "w2") 3 "user hook raised"
  exact ⟨h1.1, (h1.2.1 rfl).1, (h1.2.1 rfl).2,
    h2.1, (h2.2.2 rfl rfl rfl).1, (h2.2.2 rfl rfl rfl).2⟩

/-- Bridge between the JavaScript `remaining.length === 0` test and the
logical statement that every dependency is satisfied. -/
theorem filterLen_zero_iff (l s : List String) :
    ((l.filter (fun dep => decide (dep ∉ s))).length = 0) ↔ ∀ d ∈ l, d ∈ s := by
  rw [List.length_eq_zero, List.filter_eq_nil_iff]
  simp

/-- Case analysis of one `forEach` body step: either the state is unchanged
(name already satisfied, or some dependency missing), or the descriptor is
compiled and its name appended to the satisfied set. -/
theorem stepOne_eq_or (acc : List Action × List String) (p : Nat × Arg) :
    (stepOne acc p = acc ∧ (p.2.name ∈ acc.2 ∨ ∃ d ∈ p.2.requires, d ∉ acc.2)) ∨
    (p.2.name ∉ acc.2 ∧ (∀ d ∈ p.2.requires, d ∈ acc.2) ∧
      stepOne acc p = (acc.1 ++ [computeAction p.2 p.1], acc.2 ++ [p.2.name])) := by
  unfold stepOne
  by_cases h1 : p.2.name ∈ acc.2
  · exact Or.inl ⟨if_pos h1, Or.inl h1⟩
  · rw [if_neg h1]
    by_cases h2 : (p.2.requires.filter (fun dep => decide (dep ∉ acc.2))).length = 0
    · exact Or.inr ⟨h1, (filterLen_zero_iff _ _).mp h2, if_pos h2⟩
    · refine Or.inl ⟨if_neg h2, Or.inr ?_⟩
      have hne : p.2.requires.filter (fun dep => decide (dep ∉ acc.2)) ≠ [] := by
        intro hnil
        exact h2 (by rw [hnil]; rfl)
      rcases List.exists_mem_of_ne_nil _ hne with ⟨d, hd⟩
      have hd2 := List.mem_filter.mp hd
      refine ⟨d, hd2.1, ?_⟩
      simpa using hd2.2

/-- A full scan only appends: it extends both the action list and the
satisfied set by parallel suffixes whose names are fresh descriptor names. -/
theorem scanStep_spec (idx : List (Nat × Arg)) (st : List Action × List String) :
    ∃ u t, scanStep idx st = (st.1 ++ u, st.2 ++ t) ∧ u.length = t.length ∧
      t.Nodup ∧ ∀ x ∈ t, (∃ p, p ∈ idx ∧ (Prod.snd p).name = x) ∧ x ∉ st.2 := by
  induction idx generalizing st with
  | nil =>
    exact ⟨[], [], by simp [scanStep], rfl, List.nodup_nil, by simp⟩
  | cons q rest ih =>
    have hfold : scanStep (q :: rest) st = scanStep rest (stepOne st q) := by
      simp [scanStep, List.foldl_cons]
    rcases stepOne_eq_or st q with ⟨heq, _⟩ | ⟨hnm, hreq, heq⟩
    · rcases ih st with ⟨u, t, h1, h2, h3, h4⟩
      refine ⟨u, t, ?_, h2, h3, ?_⟩
      · rw [hfold, heq, h1]
      · intro x hx
        rcases h4 x hx with ⟨⟨p, hp, hpn⟩, hnot⟩
        exact ⟨⟨p, List.mem_cons_of_mem _ hp, hpn⟩, hnot⟩
    · rcases ih (st.1 ++ [computeAction q.2 q.1], st.2 ++ [q.2.name]) with
        ⟨u, t, h1, h2, h3, h4⟩
      refine ⟨computeAction q.2 q.1 :: u, q.2.name :: t, ?_, by simp [h2], ?_, ?_⟩
      · rw [hfold, heq, h1]
        simp
      · refine List.nodup_cons.mpr ⟨?_, h3⟩
        intro hmem
        have h5 := (h4 _ hmem).2
        simp at h5
      · intro x hx
        rcases List.mem_cons.mp hx with rfl | hx'
        · exact ⟨⟨q, List.mem_cons_self _ _, rfl⟩, hnm⟩
        · rcases h4 x hx' with ⟨⟨p, hp, hpn⟩, hnot⟩
          refine ⟨⟨p, List.mem_cons_of_mem _ hp, hpn⟩, fun hmem => hnot ?_⟩
          simp [hmem]

/-- The rescan loop shares the appending behaviour of a single scan. -/
theorem fixScan_spec (fuel : Nat) (idx : List (Nat × Arg))
    (st : List Action × List String) :
    ∃ u t, fixScan fuel idx st = (st.1 ++ u, st.2 ++ t) ∧ u.length = t.length ∧
      t.Nodup ∧ ∀ x ∈ t, (∃ p, p ∈ idx ∧ (Prod.snd p).name = x) ∧ x ∉ st.2 := by
  induction fuel generalizing st with
  | zero => exact ⟨[], [], by simp [fixScan], rfl, List.nodup_nil, by simp⟩
  | succ fuel ih =>
    rcases scanStep_spec idx st with ⟨u1, t1, h1, h2, h3, h4⟩
    by_cases hlen : (scanStep idx st).2.length = st.2.length
    · refine ⟨u1, t1, ?_, h2, h3, h4⟩
      simp only [fixScan]
      rw [if_pos hlen]
      exact h1
    · rcases ih (scanStep idx st) with ⟨u2, t2, g1, g2, g3, g4⟩
      refine ⟨u1 ++ u2, t1 ++ t2, ?_, by simp [h2, g2], ?_, ?_⟩
      · simp only [fixScan]
        rw [if_neg hlen, g1, h1]
        simp
      · rw [List.nodup_append]
        refine ⟨h3, g3, ?_⟩
        intro x hx1 hx2
        have hnot := (g4 x hx2).2
        rw [h1] at hnot
        simp at hnot
        exact hnot.2 hx1
      · intro x hx
        rcases List.mem_append.mp hx with hx1 | hx2
        · exact h4 x hx1
        · rcases g4 x hx2 with ⟨hex, hnot⟩
          rw [h1] at hnot
          simp at hnot
          exact ⟨hex, hnot.1⟩

/-- When a scan does not grow the satisfied set it changed nothing
(it is at a fixed point). -/
theorem scanStep_of_length_eq {idx : List (Nat × Arg)}
    {st : List Action × List String}
    (h : (scanStep idx st).2.length = st.2.length) :
    scanStep idx st = st := by
  rcases scanStep_spec idx st with ⟨u, t, h1, h2, _, _⟩
  rw [h1] at h
  simp at h
  have hu : u = [] := by
    apply List.length_eq_zero.mp
    rw [h2, h]
    rfl
  rw [h1, h, hu]
  simp

/-- At a fixed point, every descriptor is either already satisfied or still
blocked on some unsatisfied dependency. -/
theorem scanStep_saturates (idx : List (Nat × Arg))
    (st : List Action × List String) :
    scanStep idx st = st →
      ∀ p ∈ idx, p.2.name ∈ st.2 ∨ ∃ d ∈ p.2.requires, d ∉ st.2 := by
  induction idx with
  | nil => intro _ p hp; cases hp
  | cons q rest ih =>
    intro h p hp
    have hfold : scanStep (q :: rest) st = scanStep rest (stepOne st q) := by
      simp [scanStep, List.foldl_cons]
    rw [hfold] at h
    have hone : stepOne st q = st := by
      rcases stepOne_eq_or st q with ⟨heq, _⟩ | ⟨hnm, hreq, heq⟩
      · exact heq
      · exfalso
        rcases scanStep_spec rest (stepOne st q) with ⟨u, t, h1, _, _, _⟩
        have h5 : st = ((stepOne st q).1 ++ u, (stepOne st q).2 ++ t) :=
          h.symm.trans h1
        rw [heq] at h5
        have h6 := congrArg (fun z => z.2.length) h5
        simp at h6
    rw [hone] at h
    rcases List.mem_cons.mp hp with rfl | hp'
    · rcases stepOne_eq_or st p with ⟨_, hcase⟩ | ⟨hnm, hreq, heq⟩
      · exact hcase
      · exfalso
        rw [hone] at heq
        have h6 := congrArg (fun z => z.2.length) heq
        simp at h6
    · exact ih h p hp'

/-- Monotonicity of filtering under pointwise implication of predicates. -/
theorem filter_length_mono {α : Type} (l : List α) (p q : α → Bool)
    (h : ∀ a ∈ l, q a = true → p a = true) :
    (l.filter q).length ≤ (l.filter p).length := by
  induction l with
  | nil => simp
  | cons a rest ih =>
    have ih' := ih (fun x hx => h x (List.mem_cons_of_mem _ hx))
    by_cases hq : q a = true
    · have hp := h a (List.mem_cons_self _ _) hq
      rw [List.filter_cons, List.filter_cons, if_pos hq, if_pos hp]
      simpa using ih'
    · rw [List.filter_cons, List.filter_cons, if_neg hq]
      by_cases hp : p a = true
      · rw [if_pos hp]
        exact le_trans ih' (by simp)
      · rw [if_neg hp]
        exact ih'

/-- Strict decrease of a filter count when one surviving element stops
satisfying the (pointwise smaller) predicate. -/
theorem filter_length_strict {α : Type} (l : List α) (p q : α → Bool)
    (h : ∀ a ∈ l, q a = true → p a = true) (x : α) (hx : x ∈ l)
    (hp : p x = true) (hq : q x = false) :
    (l.filter q).length < (l.filter p).length := by
  induction l with
  | nil => cases hx
  | cons a rest ih =>
    have hmono := filter_length_mono rest p q
      (fun y hy => h y (List.mem_cons_of_mem _ hy))
    rcases List.mem_cons.mp hx with rfl | hx'
    · rw [List.filter_cons, List.filter_cons, if_pos hp, if_neg (by simp [hq])]
      simpa using Nat.lt_succ_of_le hmono
    · have ih' := ih (fun y hy => h y (List.mem_cons_of_mem _ hy)) hx'
      rw [List.filter_cons, List.filter_cons]
      by_cases hqa : q a = true
      · rw [if_pos hqa, if_pos (h a (List.mem_cons_self _ _) hqa)]
        simpa using ih'
      · rw [if_neg hqa]
        by_cases hpa : p a = true
        · rw [if_pos hpa]
          exact lt_of_lt_of_le ih' (by simp)
        · rw [if_neg hpa]
          exact ih'

/-- With fuel exceeding the number of still-unsatisfied descriptors, the
rescan loop reaches a genuine fixed point of `scanStep` — this is why the
bounded `fixScan` agrees with the unbounded JavaScript `do`/`while`. -/
theorem fixScan_fix (fuel : Nat) (idx : List (Nat × Arg)) :
    ∀ st, unsatCount idx st.2 < fuel →
      scanStep idx (fixScan fuel idx st) = fixScan fuel idx st := by
  induction fuel with
  | zero => intro st h; omega
  | succ fuel ih =>
    intro st h
    by_cases hlen : (scanStep idx st).2.length = st.2.length
    · have heq := scanStep_of_length_eq hlen
      have hfx : fixScan (fuel + 1) idx st = scanStep idx st := by
        simp only [fixScan]
        rw [if_pos hlen]
      rw [hfx, heq]
      exact heq
    · have hfx : fixScan (fuel + 1) idx st = fixScan fuel idx (scanStep idx st) := by
        simp only [fixScan]
        rw [if_neg hlen]
      rw [hfx]
      apply ih
      rcases scanStep_spec idx st with ⟨u, t, h1, h2, h3, h4⟩
      have htne : t ≠ [] := by
        intro ht
        apply hlen
        rw [h1, ht]
        simp
      rcases List.exists_mem_of_ne_nil _ htne with ⟨x, hx⟩
      rcases h4 x hx with ⟨⟨p0, hp0, hp0n⟩, hxnot⟩
      have himp : ∀ a ∈ idx, (fun pp => decide ((Prod.snd pp).name ∉ st.2 ++ t)) a = true →
          (fun pp => decide ((Prod.snd pp).name ∉ st.2)) a = true := by
        intro a _ ha
        simp at ha ⊢
        exact fun hmem => ha.1 hmem
      have hpp : (fun pp => decide ((Prod.snd pp).name ∉ st.2)) p0 = true := by
        simp [hp0n, hxnot]
      have hqq : (fun pp => decide ((Prod.snd pp).name ∉ st.2 ++ t)) p0 = true → False := by
        intro hcon
        simp [hp0n] at hcon
        exact hcon.2 hx
      have hdec : unsatCount idx (st.2 ++ t) < unsatCount idx st.2 := by
        apply filter_length_strict idx _ _ himp p0 hp0 hpp
        simp [hp0n, hx]
      have h5 : (scanStep idx st).2 = st.2 ++ t := by rw [h1]
      rw [h5]
      omega

/-- Membership in the satisfied set is preserved by the rescan loop. -/
theorem fixScan_mem {fuel : Nat} {idx : List (Nat × Arg)}
    {st : List Action × List String} {x : String} (hx : x ∈ st.2) :
    x ∈ (fixScan fuel idx st).2 := by
  rcases fixScan_spec fuel idx st with ⟨u, t, h1, _, _, _⟩
  rw [h1]
  simp [hx]

/-- The second component of a pair in an `enumFrom` list is a list member. -/
theorem mem_enumFrom_snd {α : Type} :
    ∀ (l : List α) (n : Nat) (p : Nat × α), p ∈ List.enumFrom n l → p.2 ∈ l := by
  intro l
  induction l with
  | nil => intro n p hp; cases hp
  | cons a rest ih =>
    intro n p hp
    simp only [List.enumFrom] at hp
    rcases List.mem_cons.mp hp with rfl | hp'
    · exact List.mem_cons_self _ _
    · exact List.mem_cons_of_mem _ (ih (n + 1) p hp')

/-- Specialization of `mem_enumFrom_snd` to `List.enum`. -/
theorem mem_enum_snd {α : Type} {l : List α} {p : Nat × α}
    (h : p ∈ l.enum) : p.2 ∈ l :=
  mem_enumFrom_snd l 0 p h

/-- Every list member appears (with some index) in its `enumFrom` list. -/
theorem exists_mem_enumFrom {α : Type} :
    ∀ (l : List α) (a : α), a ∈ l → ∀ n, ∃ i, (i, a) ∈ List.enumFrom n l := by
  intro l
  induction l with
  | nil => intro a ha; cases ha
  | cons x rest ih =>
    intro a ha n
    rcases List.mem_cons.mp ha with rfl | ha'
    · exact ⟨n, by simp [List.enumFrom]⟩
    · rcases ih a ha' (n + 1) with ⟨i, hi⟩
      exact ⟨i, List.mem_cons_of_mem _ hi⟩

/-- Success of `computeActions`: when every dependency name resolves inside
the schema (or is the `"$out"` sentinel), no descriptor is named `"$out"`,
and the direct-dependency relation is well-founded (no cycle), every
descriptor name ends up satisfied by the exit pass. -/
theorem computeActions_success (f : Func)
    (hout : ∀ a ∈ specArgs f, a.name ≠ "$out")
    (hclosed : ∀ a ∈ specArgs f, ∀ d ∈ a.requires,
      d = "$out" ∨ d ∈ (specArgs f).map Arg.name)
    (hwf : WellFounded (depRelN (specArgs f))) :
    ∀ a ∈ specArgs f, a.name ∈ (exitPass f).2 := by
  by_contra hcon
  push_neg at hcon
  rcases hcon with ⟨a0, ha0, ha0n⟩
  have hSne : Set.Nonempty
      {x : String | ∃ b ∈ specArgs f, b.name = x ∧ x ∉ (exitPass f).2} :=
    ⟨a0.name, a0, ha0, rfl, ha0n⟩
  rcases hwf.has_min _ hSne with ⟨m, ⟨bm, hbm, hbmn, hmnot⟩, hmin⟩
  have hfix : scanStep (specArgs f).enum (exitPass f) = exitPass f := by
    unfold exitPass
    apply fixScan_fix
    calc unsatCount (specArgs f).enum (addName (entryPass f).2 "$out")
        ≤ (specArgs f).enum.length := List.length_filter_le _ _
      _ = (specArgs f).length := List.enum_length
      _ < (specArgs f).length + 1 := by omega
  have hsat := scanStep_saturates _ _ hfix
  rcases exists_mem_enumFrom (specArgs f) bm hbm 0 with ⟨i, hi⟩
  rcases hsat (i, bm) hi with hmem | ⟨d, hd, hdnot⟩
  · exact hmnot (hbmn ▸ hmem)
  · rcases hclosed bm hbm d hd with rfl | hdname
    · apply hdnot
      show "$out" ∈ (exitPass f).2
      unfold exitPass
      apply fixScan_mem
      show "$out" ∈ addName (entryPass f).2 "$out"
      unfold addName
      split
      · assumption
      · simp
    · rcases List.mem_map.mp hdname with ⟨c, hc, hcn⟩
      exact hmin d ⟨c, hc, hcn, hdnot⟩ ⟨bm, hbm, hbmn, hd⟩

/-- Counting: once every descriptor name is satisfied, the entry and exit
action lists together hold exactly one action per descriptor. -/
theorem computeActions_count (f : Func)
    (hnodup : ((specArgs f).map Arg.name).Nodup)
    (hout : ∀ a ∈ specArgs f, a.name ≠ "$out")
    (hall : ∀ a ∈ specArgs f, a.name ∈ (exitPass f).2) :
    (entryPass f).1.length + (exitPass f).1.length = (specArgs f).length := by
  rcases fixScan_spec ((specArgs f).length + 1) (specArgs f).enum ([], []) with
    ⟨u1, t1, h1, h2, h3, h4⟩
  have hep : entryPass f = (u1, t1) := by
    unfold entryPass
    rw [h1]
    simp
  have hout1 : "$out" ∉ t1 := by
    intro hmem
    rcases (h4 _ hmem).1 with ⟨p, hp, hpn⟩
    exact hout p.2 (mem_enum_snd hp) hpn
  have haddn : addName (entryPass f).2 "$out" = t1 ++ ["$out"] := by
    rw [hep]
    unfold addName
    rw [if_neg hout1]
  rcases fixScan_spec ((specArgs f).length + 1) (specArgs f).enum
      ([], addName (entryPass f).2 "$out") with ⟨u2, t2, g1, g2, g3, g4⟩
  have hxp : exitPass f = (u2, (t1 ++ ["$out"]) ++ t2) := by
    unfold exitPass
    rw [g1, haddn]
    simp
  have hnd : ((t1 ++ ["$out"]) ++ t2).Nodup := by
    rw [List.nodup_append]
    refine ⟨?_, g3, ?_⟩
    · rw [List.nodup_append]
      refine ⟨h3, List.nodup_singleton _, ?_⟩
      intro x hx1 hx2
      simp at hx2
      subst hx2
      exact hout1 hx1
    · intro x hx1 hx2
      have hnot := (g4 x hx2).2
      rw [haddn] at hnot
      exact hnot hx1
  have hsub : (t1 ++ ["$out"]) ++ t2 ⊆ "$out" :: (specArgs f).map Arg.name := by
    intro x hx
    rcases List.mem_append.mp hx with hx1 | hx2
    · rcases List.mem_append.mp hx1 with hx3 | hx4
      · rcases (h4 x hx3).1 with ⟨p, hp, hpn⟩
        exact List.mem_cons_of_mem _ (List.mem_map.mpr ⟨p.2, mem_enum_snd hp, hpn⟩)
      · simp at hx4
        subst hx4
        exact List.mem_cons_self _ _
    · rcases (g4 x hx2).1 with ⟨p, hp, hpn⟩
      exact List.mem_cons_of_mem _ (List.mem_map.mpr ⟨p.2, mem_enum_snd hp, hpn⟩)
  have hsup : "$out" :: (specArgs f).map Arg.name ⊆ (t1 ++ ["$out"]) ++ t2 := by
    intro x hx
    rcases List.mem_cons.mp hx with rfl | hx'
    · simp
    · rcases List.mem_map.mp hx' with ⟨c, hc, hcn⟩
      have hmem := hall c hc
      rw [hxp] at hmem
      rw [← hcn]
      exact hmem
  have hnd2 : ("$out" :: (specArgs f).map Arg.name).Nodup := by
    refine List.nodup_cons.mpr ⟨?_, hnodup⟩
    intro hmem
    rcases List.mem_map.mp hmem with ⟨c, hc, hcn⟩
    exact hout c hc hcn
  have hle1 := (List.Nodup.subperm hnd hsub).length_le
  have hle2 := (List.Nodup.subperm hnd2 hsup).length_le
  have e1 : (entryPass f).1.length = t1.length := by rw [hep]; exact h2
  have e2 : (exitPass f).1.length = t2.length := by rw [hxp]; exact g2
  simp [List.length_append, List.length_map] at hle1 hle2
  omega

/-- Invariant: a scan never satisfies any member of a dependency cycle
(with unique descriptor names). -/
theorem foldl_cycle_inv (args : List Arg) (C : List Arg)
    (hnodup : (args.map Arg.name).Nodup)
    (hC : ∀ a ∈ C, a ∈ args)
    (hcycC : ∀ a ∈ C, ∃ d ∈ a.requires, ∃ b, b ∈ C ∧ b.name = d) :
    ∀ (idx : List (Nat × Arg)), (∀ p ∈ idx, (Prod.snd p) ∈ args) →
      ∀ st, (∀ a ∈ C, a.name ∉ st.2) →
        ∀ a ∈ C, a.name ∉ (List.foldl stepOne st idx).2 := by
  intro idx
  induction idx with
  | nil => intro _ st hinv a ha; exact hinv a ha
  | cons q rest ih =>
    intro hargs st hinv
    rw [List.foldl_cons]
    apply ih (fun p hp => hargs p (List.mem_cons_of_mem _ hp))
    rcases stepOne_eq_or st q with ⟨heq, _⟩ | ⟨hnm, hreq, heq⟩
    · rw [heq]; exact hinv
    · rw [heq]
      intro a ha hmem
      rcases List.mem_append.mp hmem with hmem1 | hmem2
      · exact hinv a ha hmem1
      · simp at hmem2
        have hqa : q.2 = a := List.inj_on_of_nodup_map hnodup
          (hargs q (List.mem_cons_self _ _)) (hC a ha) hmem2.symm
        rcases hcycC a ha with ⟨d, hd, b, hb, hbn⟩
        have hdin : d ∈ st.2 := by
          apply hreq
          rw [hqa]
          exact hd
        rw [← hbn] at hdin
        exact hinv b hb hdin

/-- The cycle invariant is preserved by the whole rescan loop. -/
theorem fixScan_cycle_inv (args : List Arg) (C : List Arg)
    (hnodup : (args.map Arg.name).Nodup)
    (hC : ∀ a ∈ C, a ∈ args)
    (hcycC : ∀ a ∈ C, ∃ d ∈ a.requires, ∃ b, b ∈ C ∧ b.name = d)
    (idx : List (Nat × Arg)) (hargs : ∀ p ∈ idx, (Prod.snd p) ∈ args) :
    ∀ (fuel : Nat) (st : List Action × List String),
      (∀ a ∈ C, a.name ∉ st.2) →
        ∀ a ∈ C, a.name ∉ (fixScan fuel idx st).2 := by
  intro fuel
  induction fuel with
  | zero =>
    intro st hinv a ha
    simpa [fixScan] using hinv a ha
  | succ fuel ih =>
    intro st hinv a ha
    simp only [fixScan]
    split
    · exact foldl_cycle_inv args C hnodup hC hcycC idx hargs st hinv a ha
    · exact ih (scanStep idx st)
        (foldl_cycle_inv args C hnodup hC hcycC idx hargs st hinv) a ha

/-- A schema with a dependency cycle (and unique names, none being the
reserved sentinel) makes `computeActions` report failure. -/
theorem computeActions_cycle (f : Func)
    (hnodup : ((specArgs f).map Arg.name).Nodup)
    (hout : ∀ a ∈ specArgs f, a.name ≠ "$out")
    (hcyc : hasCycle (specArgs f)) :
    (computeActions f).1 = false := by
  rcases hcyc with ⟨C, hCne, hCsub, hCcyc⟩
  have hidx : ∀ p ∈ (specArgs f).enum, (Prod.snd p) ∈ specArgs f :=
    fun p hp => mem_enum_snd hp
  have hinv1 : ∀ a ∈ C, a.name ∉ (entryPass f).2 :=
    fixScan_cycle_inv (specArgs f) C hnodup hCsub hCcyc (specArgs f).enum hidx
      ((specArgs f).length + 1) ([], []) (by simp)
  have hinv2 : ∀ a ∈ C, a.name ∉ addName (entryPass f).2 "$out" := by
    intro a ha hmem
    unfold addName at hmem
    split at hmem
    · exact hinv1 a ha hmem
    · rcases List.mem_append.mp hmem with hmem1 | hmem2
      · exact hinv1 a ha hmem1
      · simp at hmem2
        exact hout a (hCsub a ha) hmem2
  have hinv3 : ∀ a ∈ C, a.name ∉ (exitPass f).2 :=
    fixScan_cycle_inv (specArgs f) C hnodup hCsub hCcyc (specArgs f).enum hidx
      ((specArgs f).length + 1) ([], addName (entryPass f).2 "$out") hinv2
  rcases List.exists_mem_of_ne_nil C hCne with ⟨a0, ha0⟩
  simp [computeActions, List.any_eq_true]
  exact ⟨a0, hCsub a0 ha0, hinv3 a0 ha0⟩

/-- C3: for a schema with unique descriptor names, dependency names that all
resolve within the schema (`"$out"` aside), no descriptor named `"$out"`,
and a well-founded (acyclic) dependency relation, `computeActions` succeeds
and the entry and exit action lists together contain exactly one action per
descriptor, the return-value descriptor included. -/
theorem c3_compiler_total (f : Func)
    (hnodup : ((specArgs f).map Arg.name).Nodup)
    (hout : ∀ a ∈ specArgs f, a.name ≠ "$out")
    (hclosed : ∀ a ∈ specArgs f, ∀ d ∈ a.requires,
      d = "$out" ∨ d ∈ (specArgs f).map Arg.name)
    (hwf : WellFounded (depRelN (specArgs f))) :
    (computeActions f).1 = true ∧
    (computeActions f).2.1.length + (computeActions f).2.2.length =
      (specArgs f).length := by
  have hall := computeActions_success f hout hclosed hwf
  constructor
  · simp [computeActions, List.any_eq_false]
    exact hall
  · exact computeActions_count f hnodup hout hall

/-- C3 witness: the concrete three-descriptor schema `wf1` (in, out and
return value), whose dependency relation has no edges between schema names
and is therefore well-founded. -/
theorem c3_witness :
    (computeActions wf1).1 = true ∧
    (computeActions wf1).2.1.length + (computeActions wf1).2.2.length =
      (specArgs wf1).length := by
  apply c3_compiler_total wf1 (by decide) (by decide) (by decide)
  have hpred : ∀ x y, depRelN (specArgs wf1) x y → x = "$out" := by
    intro x y hr
    rcases hr with ⟨b, hb, hbn, hxreq⟩
    have hb' : b = argIn "a" (ArgType.plain INT) none ∨
        b = argOut "b" (ArgType.plain INT) none ∨
        b = retval (ArgType.plain INT) none := by
      simpa [wf1, func, specArgs] using hb
    rcases hb' with rfl | rfl | rfl
    · simp [argIn, arg, dependencies] at hxreq
    · simpa [argOut, arg, dependencies] using hxreq
    · simpa [retval, argOut, arg, dependencies] using hxreq
  have hacc : Acc (depRelN (specArgs wf1)) "$out" := by
    constructor
    intro x hx
    exfalso
    rcases hx with ⟨b, hb, hbn, _⟩
    have hb' : b = argIn "a" (ArgType.plain INT) none ∨
        b = argOut "b" (ArgType.plain INT) none ∨
        b = retval (ArgType.plain INT) none := by
      simpa [wf1, func, specArgs] using hb
    rcases hb' with rfl | rfl | rfl <;>
      exact absurd hbn (by decide)
  constructor
  intro y
  constructor
  intro x hx
  rw [hpred x y hx]
  exact hacc

/-- Recursion-unfolding of module-mode tracing over list append: each
schema is processed independently. -/
theorem traceModule_append (collab : Collab) (m : String) (l1 l2 : List Func) :
    traceModule collab m (l1 ++ l2) =
      traceModule collab m l1 ++ traceModule collab m l2 := by
  induction l1 with
  | nil => simp [traceModule]
  | cons f rest ih => simp [traceModule, ih]

/-- C4: a schema whose descriptors form a dependency cycle (with unique
names, none the reserved sentinel) makes the interceptor report exactly one
circular-dependency error through the error channel and attach nothing,
while every other schema in the same module-mode trace is processed exactly
as it would be on its own. -/
theorem c4_cycle_reported_once (collab : Collab) (moduleName : String)
    (l1 l2 : List Func) (f : Func) (impl : Nat)
    (hres : collab.findExport moduleName f.name = some impl)
    (hnodup : ((specArgs f).map Arg.name).Nodup)
    (hout : ∀ a ∈ specArgs f, a.name ≠ "$out")
    (hcyc : hasCycle (specArgs f)) :
    traceModule collab moduleName [f] = [SetupEffect.circularError f.name] ∧
    traceModule collab moduleName (l1 ++ f :: l2) =
      traceModule collab moduleName l1 ++
        SetupEffect.circularError f.name :: traceModule collab moduleName l2 := by
  have hfail := computeActions_cycle f hnodup hout hcyc
  have hint : intercept f impl = [SetupEffect.circularError f.name] := by
    simp [intercept, hfail]
  have h1 : traceModule collab moduleName (f :: l2) =
      SetupEffect.circularError f.name :: traceModule collab moduleName l2 := by
    simp [traceModule, hres, hint]
  refine ⟨?_, ?_⟩
  · simp [traceModule, hres, hint]
  · rw [traceModule_append, h1]

/-- C4 witness: the concrete condition-cycle schema `cycF` between two
acyclic copies of `wf1`. -/
theorem c4_witness :
    traceModule collabW "m" [cycF] = [SetupEffect.circularError cycF.name] ∧
    traceModule collabW "m" ([wf1] ++ cycF :: [wf1]) =
      traceModule collabW "m" [wf1] ++
        SetupEffect.circularError cycF.name :: traceModule collabW "m" [wf1] := by
  apply c4_cycle_reported_once collabW "m" [wf1] [wf1] cycF 4096 rfl (by decide) (by decide)
  refine ⟨[cycA, cycB], by simp, ?_, ?_⟩
  · intro a ha
    simpa [cycF, func, specArgs] using ha
  · intro a ha
    have ha' : a = cycA ∨ a = cycB := by simpa using ha
    rcases ha' with rfl | rfl
    · exact ⟨"b", by decide, cycB, by simp, rfl⟩
    · exact ⟨"a", by decide, cycA, by simp, rfl⟩

/-- C7: in vtable mode a padding marker of size `n` advances the slot offset
by `n` pointer widths without any memory read; a function entry reads the
implementation pointer at the current offset and advances by one pointer
width; in particular for entries `[padding 2, funcSpec]` the implementation
address is read from `base + 2 * pointerSize` — and `base + 0` is never
read (pointer width being positive). -/
theorem c7_vtable_padding (collab : Collab) (vtable : Nat) (f g : Func)
    (impl i : Nat) (rest rest' : List Entry) (offset offset' n : Nat)
    (hread : collab.readPointer (vtable + 2 * collab.pointerSize) = Except.ok impl)
    (hread' : collab.readPointer (vtable + offset') = Except.ok i)
    (hW : 0 < collab.pointerSize) :
    vtableWalk collab vtable (Entry.pad n :: rest) offset =
      vtableWalk collab vtable rest (offset + n * collab.pointerSize) ∧
    vtableWalk collab vtable (Entry.fn g :: rest') offset' =
      SetupEffect.vtableRead (vtable + offset') ::
        (intercept g i ++ vtableWalk collab vtable rest' (offset' + collab.pointerSize)) ∧
    vtableWalk collab vtable [Entry.pad 2, Entry.fn f] 0 =
      [SetupEffect.vtableRead (vtable + 2 * collab.pointerSize)] ++ intercept f impl ∧
    SetupEffect.vtableRead vtable ∉ vtableWalk collab vtable [Entry.pad 2, Entry.fn f] 0 := by
  have h2 : vtableWalk collab vtable (Entry.fn g :: rest') offset' =
      SetupEffect.vtableRead (vtable + offset') ::
        (intercept g i ++ vtableWalk collab vtable rest' (offset' + collab.pointerSize)) := by
    simp [vtableWalk, hread']
  have h3 : vtableWalk collab vtable [Entry.pad 2, Entry.fn f] 0 =
      [SetupEffect.vtableRead (vtable + 2 * collab.pointerSize)] ++ intercept f impl := by
    simp [vtableWalk, hread]
  refine ⟨rfl, h2, h3, ?_⟩
  rw [h3]
  intro hmem
  rcases List.mem_append.mp hmem with h4 | h5
  · simp at h4
    omega
  · by_cases hb : (computeActions f).1
    · simp [intercept, hb] at h5
    · simp [intercept, hb] at h5

/-- C7 witness: the concrete collaborator with pointer width 8 and base 100;
the padded slot is read at address 116. -/
theorem c7_witness :
    vtableWalk collabW 100 (Entry.pad 2 :: []) 0 =
      vtableWalk collabW 100 [] (0 + 2 * collabW.pointerSize) ∧
    vtableWalk collabW 100 (Entry.fn wf1 :: []) 0 =
      SetupEffect.vtableRead (100 + 0) ::
        (intercept wf1 101 ++ vtableWalk collabW 100 [] (0 + collabW.pointerSize)) ∧
    vtableWalk collabW 100 [Entry.pad 2, Entry.fn wf1] 0 =
      [SetupEffect.vtableRead (100 + 2 * collabW.pointerSize)] ++ intercept wf1 117 ∧
    SetupEffect.vtableRead 100 ∉ vtableWalk collabW 100 [Entry.pad 2, Entry.fn wf1] 0 :=
  c7_vtable_padding collabW 100 wf1 wf1 117 101 [] [] 0 0 2 rfl rfl (by decide)

end FridaTrace
